import Mathlib

/-!
# shank: the session driver and command synthesizer of `main.go`

A shallow embedding of `main.go`.  The program talks to a warden server
through three operations of `connection.Connection` (`SendMessage`,
`RoundTrip`, `ReadResponse`), reads `os.Stdin`, writes `os.Stdout` and may
leave through `os.Exit(1)`.  Each of these effects is recorded as an `Event`
of a trace; a run of a function is its trace together with its `Fate`.
-/

namespace Shank

/-! ## Wire messages (package `garden/protocol`) -/

/-- One octet of a `[]byte`. -/
abbrev Byte := Fin 256

/-- The message `warden.ProcessPayload`; every field is a pointer in Go, so
absent (`nil`) and present-with-zero are distinct. -/
structure ProcessPayload where
  processId : Option Nat
  source : Option Nat
  data : Option String
  exitStatus : Option Nat
  deriving DecidableEq, Repr

/-- The message `warden.StreamChunk`: `Content []byte` and `EOF *bool`. -/
structure StreamChunk where
  content : List Byte
  eof : Option Bool
  deriving DecidableEq, Repr

/-- The accessor `GetContent` of a chunk. -/
def StreamChunk.getContent (c : StreamChunk) : List Byte := c.content

/-- A request value as built by `requestFromInput`: its message type and
its populated fields, which the driver never inspects. -/
structure Request where
  typeName : String
  fields : List (String × String)
  deriving DecidableEq, Repr

/-- A message arriving from the server. -/
inductive Frame where
  | response (body : String)
  | payload (p : ProcessPayload)
  | chunk (c : StreamChunk)
  deriving DecidableEq, Repr

/-- A message written to the server. -/
inductive Message where
  | request (r : Request)
  | chunk (c : StreamChunk)
  deriving DecidableEq, Repr

/-! ## The scripted connection -/

/-- A scripted `connection.Connection`.  `sends` holds the result of each
successive write (`none`: delivered, `some cause`: the write fails); writes
past the end of the list are delivered.  `recvs` holds what each successive
receive meets: a frame or a failure; past the end of the list the peer has
closed the connection and a receive fails. -/
structure Conn where
  sends : List (Option String)
  recvs : List (Except String Frame)

/-- `SendMessage`: the error of the write, if any, and the connection after it. -/
def Conn.sendMessage (c : Conn) : Option String × Conn :=
  match c.sends with
  | [] => (none, c)
  | o :: rest => (o, { c with sends := rest })

/-- The next incoming frame. -/
def Conn.recv (c : Conn) : Except String Frame × Conn :=
  match c.recvs with
  | [] => (.error "EOF", c)
  | r :: rest => (r, { c with recvs := rest })

/-- `ReadResponse` into a `*warden.ProcessPayload`; a frame of another
type is a type-mismatch error. -/
def Conn.readPayload (c : Conn) : Except String ProcessPayload × Conn :=
  match c.recv with
  | (.ok (.payload p), c1) => (.ok p, c1)
  | (.ok _, c1) => (.error "type mismatch", c1)
  | (.error e, c1) => (.error e, c1)

/-- `ReadResponse` into a `*warden.StreamChunk`. -/
def Conn.readChunk (c : Conn) : Except String StreamChunk × Conn :=
  match c.recv with
  | (.ok (.chunk k), c1) => (.ok k, c1)
  | (.ok _, c1) => (.error "type mismatch", c1)
  | (.error e, c1) => (.error e, c1)

/-- `ReadResponse` into a response message such as `*warden.StreamInResponse`. -/
def Conn.readResponse (c : Conn) : Except String String × Conn :=
  match c.recv with
  | (.ok (.response b), c1) => (.ok b, c1)
  | (.ok _, c1) => (.error "type mismatch", c1)
  | (.error e, c1) => (.error e, c1)

/-- `RoundTrip`: write the request, then read its response; a failed write
reads nothing. -/
def Conn.roundTrip (c : Conn) : Except String String × Conn :=
  match c.sendMessage with
  | (some e, c1) => (.error e, c1)
  | (none, c1) => c1.readResponse

/-! ## Local input -/

/-- The error result of a `Read` on `os.Stdin`. -/
inductive ReadErr where
  | none
  | eof
  | other (cause : String)
  deriving DecidableEq, Repr

/-- A burst of local input: bytes that become available together, and the
error reported with the last of them. -/
structure Burst where
  data : List Byte
  err : ReadErr
  deriving DecidableEq, Repr

/-- The local input as the bursts still to come; after the last burst the
input is at its end. -/
abbrev Stdin := List Burst

/-- `os.Stdin.Read(buf)` with `len(buf) = cap`: a burst that fits the
buffer is returned whole with its error; of a larger one the first `cap`
bytes are returned and the remainder stays pending; at the end of the
input the result is `0, io.EOF`. -/
def stdinRead (cap : Nat) : Stdin → (List Byte × ReadErr) × Stdin
  | [] => (([], .eof), [])
  | b :: rest =>
    if b.data.length ≤ cap then ((b.data, b.err), rest)
    else ((b.data.take cap, .none), { b with data := b.data.drop cap } :: rest)

/-! ## Traces -/

/-- One observable effect of the program. -/
inductive Event where
  /-- `conn.SendMessage(m)`, and whether it succeeded. -/
  | sent (m : Message) (ok : Bool)
  /-- `conn.RoundTrip(r, response)`: the response body, or `none` on failure. -/
  | roundTrip (r : Request) (got : Option String)
  /-- `conn.ReadResponse(_)`: the frame decoded, or `none` on failure. -/
  | read (got : Option Frame)
  /-- `os.Stdin.Read(buf)`: the bytes `buf[:n]` and the error. -/
  | stdin (data : List Byte) (err : ReadErr)
  /-- `encoder.Encode(_)`: one JSON record on standard output. -/
  | record (f : Frame)
  /-- `os.Stdout.Write(_)`: raw bytes on standard output. -/
  | raw (bytes : List Byte)
  /-- `fmt.Println(_)`: one line of text on standard output. -/
  | println (line : String)
  deriving DecidableEq, Repr

/-- How a run ends: by returning, by `os.Exit(code)`, or not within the
iterations granted to a loop. -/
inductive Fate where
  | returned
  | exited (code : Nat)
  | outOfFuel
  deriving DecidableEq, Repr

/-- A run over a connection: the trace, the fate and the connection left. -/
structure Run where
  events : List Event
  fate : Fate
  conn : Conn

/-- The run preceded by the events `pre`. -/
def Run.after (pre : List Event) (r : Run) : Run :=
  { r with events := pre ++ r.events }

/-! ## The session driver -/

/-- The `for` loop of `streamProcessPayloads`, at most `fuel` iterations. -/
def streamProcessPayloadsLoop : Nat → Conn → Run
  | 0, conn => ⟨[], .outOfFuel, conn⟩
  | fuel + 1, conn =>
    match conn.readPayload with
    | (.error err, conn1) =>
      ⟨[.read none, .println ("stream failed: " ++ err)], .exited 1, conn1⟩
    | (.ok payload, conn1) =>
      let here := [Event.read (some (.payload payload)), .record (.payload payload)]
      if payload.exitStatus ≠ none then ⟨here, .returned, conn1⟩
      else (streamProcessPayloadsLoop fuel conn1).after here

/-- `streamProcessPayloads`: every iteration consumes one scripted receive,
so one iteration more than there are receives is never used up. -/
def streamProcessPayloads (conn : Conn) : Run :=
  streamProcessPayloadsLoop (conn.recvs.length + 1) conn

/-- The `for` loop of `streamStreamOut`, at most `fuel` iterations. -/
def streamStreamOutLoop : Nat → Conn → Run
  | 0, conn => ⟨[], .outOfFuel, conn⟩
  | fuel + 1, conn =>
    match conn.readChunk with
    | (.error err, conn1) =>
      ⟨[.read none, .println ("stream failed: " ++ err)], .exited 1, conn1⟩
    | (.ok payload, conn1) =>
      let here := [Event.read (some (.chunk payload)), .raw payload.getContent]
      if payload.eof ≠ none then ⟨here, .returned, conn1⟩
      else (streamStreamOutLoop fuel conn1).after here

/-- `streamStreamOut`. -/
def streamStreamOut (conn : Conn) : Run :=
  streamStreamOutLoop (conn.recvs.length + 1) conn

/-- The size of the buffer of `streamStreamIn`: `64*1024`. -/
def bufSize : Nat := 64 * 1024

/-- The `for` loop of `streamStreamIn`, at most `fuel` iterations; the
local input left is returned with the run. -/
def streamStreamInLoop : Nat → Conn → Stdin → Run × Stdin
  | 0, conn, input => (⟨[], .outOfFuel, conn⟩, input)
  | fuel + 1, conn, input =>
    -- `buf := make([]byte, 64*1024)` and `n, err := os.Stdin.Read(buf)`
    match stdinRead bufSize input with
    | ((data, err), input1) =>
      let rd := [Event.stdin data err]
      -- `if n > 0`: send the chunk with `Content: buf[:n]`, leave on failure
      let content : Run :=
        if 0 < data.length then
          match conn.sendMessage with
          | (some e, conn1) =>
            ⟨[.sent (.chunk ⟨data, none⟩) false, .println ("writing content failed: " ++ e)],
              .exited 1, conn1⟩
          | (none, conn1) => ⟨[.sent (.chunk ⟨data, none⟩) true], .returned, conn1⟩
        else ⟨[], .returned, conn⟩
      match content.fate with
      | .returned =>
        match err with
        -- `if err == io.EOF`: send the chunk with `EOF: proto.Bool(true)`, then `break`
        | .eof =>
          match content.conn.sendMessage with
          | (some e, conn2) =>
            (⟨rd ++ content.events ++
                [.sent (.chunk ⟨[], some true⟩) false, .println ("writing EOF failed: " ++ e)],
              .exited 1, conn2⟩, input1)
          | (none, conn2) =>
            (⟨rd ++ content.events ++ [.sent (.chunk ⟨[], some true⟩) true], .returned, conn2⟩,
              input1)
        -- `if err != nil`
        | .other cause =>
          (⟨rd ++ content.events ++ [.println ("stream interrupted: " ++ cause)],
            .exited 1, content.conn⟩, input1)
        -- next iteration
        | .none =>
          let (r, input2) := streamStreamInLoop fuel content.conn input1
          (r.after (rd ++ content.events), input2)
      -- `os.Exit(1)` after the failed send of the content chunk
      | _ => (content.after rd, input1)

/-- The number of reads after which the local input is surely at its end:
a read either finishes a burst or takes `bufSize > 0` bytes of one. -/
def readsBound (input : Stdin) : Nat :=
  (input.map fun b => b.data.length + 1).sum

/-- `streamStreamIn`: the forwarding loop, then one `ReadResponse`. -/
def streamStreamIn (conn : Conn) (input : Stdin) : Run :=
  let (loop, _) := streamStreamInLoop (readsBound input + 1) conn input
  match loop.fate with
  | .returned =>
    -- `resp := &warden.StreamInResponse` and `conn.ReadResponse(resp)`
    match loop.conn.readResponse with
    | (.error err, conn1) =>
      ⟨loop.events ++ [.read none, .println ("stream failed: " ++ err)], .exited 1, conn1⟩
    | (.ok resp, conn1) =>
      ⟨loop.events ++ [.read (some (.response resp))], .returned, conn1⟩
  | _ => loop

/-- The `Action` of a generated command: `provided` is the result of
`cp.ProvideConnection()`, `request` that of `requestFromInput`. -/
def action (commandName : String) (request : Request)
    (provided : Except String Conn) (input : Stdin) : List Event × Fate :=
  match provided with
  | .error err => ([.println ("failed to connect to warden: " ++ err)], .exited 1)
  | .ok conn =>
    if commandName = "attach" then
      -- `conn.SendMessage(request)`, then `streamProcessPayloads` and `return`
      match conn.sendMessage with
      | (some err, _) =>
        ([.sent (.request request) false, .println ("request-response failed: " ++ err)],
          .exited 1)
      | (none, conn1) =>
        let r := (streamProcessPayloads conn1).after [.sent (.request request) true]
        (r.events, r.fate)
    else
      -- `conn.RoundTrip(request, response)`
      match conn.roundTrip with
      | (.error err, _) =>
        ([.roundTrip request none, .println ("request-response failed: " ++ err)], .exited 1)
      | (.ok response, conn1) =>
        let rt := [Event.roundTrip request (some response)]
        if commandName = "streamOut" then
          let r := (streamStreamOut conn1).after rt
          (r.events, r.fate)
        else if commandName = "streamIn" then
          let r := (streamStreamIn conn1 input).after rt
          (r.events, r.fate)
        else
          -- `encoder.Encode(response)`
          let enc := rt ++ [Event.record (.response response)]
          if commandName = "run" then
            let r := (streamProcessPayloads conn1).after enc
            (r.events, r.fate)
          else (enc, .returned)

/-! ## Observations on a trace -/

/-- A connection operation: a send, a round trip or a read. -/
def Event.isConnOp : Event → Bool
  | .sent _ _ => true
  | .roundTrip _ _ => true
  | .read _ => true
  | _ => false

/-- A connection operation that failed. -/
def Event.failed : Event → Bool
  | .sent _ ok => !ok
  | .roundTrip _ got => got.isNone
  | .read got => got.isNone
  | _ => false

/-- A rendering on standard output of something received: a record or
raw chunk bytes. -/
def Event.rendered : Event → Bool
  | .record _ => true
  | .raw _ => true
  | _ => false

/-- No connection operation of the trace failed. -/
def Clean (t : List Event) : Prop := ∀ e ∈ t, e.failed = false

/-- A failed connection operation ends the run: the fate is `os.Exit(1)`
and all that follows the failure is the one line reporting it. -/
def FailStop (t : List Event) (f : Fate) : Prop :=
  ∀ pre e post, t = pre ++ e :: post → e.failed = true →
    f = .exited 1 ∧ ∃ line, post = [Event.println line]

/-- What every run of the driver satisfies: a run that returns had no
failed operation, and a failed operation ends the run. -/
def Sound (t : List Event) (f : Fate) : Prop :=
  (f = .returned → Clean t) ∧ FailStop t f

/-- The records written by `encoder.Encode`, in order. -/
def records (t : List Event) : List Frame :=
  t.filterMap fun e => match e with
    | .record f => some f
    | _ => none

/-- The raw writes on standard output, in order. -/
def rawWrites (t : List Event) : List (List Byte) :=
  t.filterMap fun e => match e with
    | .raw b => some b
    | _ => none

/-- The messages received from the connection, in arrival order: the
response of a successful round trip and the frame of a successful read. -/
def received (t : List Event) : List Frame :=
  t.filterMap fun e => match e with
    | .roundTrip _ (some body) => some (.response body)
    | .read (some f) => some f
    | _ => none

/-- The number of `ReadResponse` calls, failed ones included. -/
def readCount (t : List Event) : Nat :=
  (t.filter fun e => match e with
    | .read _ => true
    | _ => false).length

/-- The number of `RoundTrip` calls, failed ones included. -/
def roundTripCount (t : List Event) : Nat :=
  (t.filter fun e => match e with
    | .roundTrip _ _ => true
    | _ => false).length

/-- The messages handed to `SendMessage`, in order. -/
def sentMessages (t : List Event) : List Message :=
  t.filterMap fun e => match e with
    | .sent m _ => some m
    | _ => none

/-- The results of the reads of the local input, in order. -/
def localReads (t : List Event) : List (List Byte × ReadErr) :=
  t.filterMap fun e => match e with
    | .stdin d err => some (d, err)
    | _ => none

/-- The bytes that reach standard output, for any rendering `json` of a
record (newline included) and `text` of a printed line. -/
def stdoutBytes (json : Frame → List Byte) (text : String → List Byte) :
    List Event → List Byte
  | [] => []
  | .record f :: t => json f ++ stdoutBytes json text t
  | .raw b :: t => b ++ stdoutBytes json text t
  | .println l :: t => text l ++ stdoutBytes json text t
  | _ :: t => stdoutBytes json text t

/-- The trace of reading and rendering the process-output frames `ps` in turn. -/
def payloadEvents : List ProcessPayload → List Event
  | [] => []
  | p :: ps => .read (some (.payload p)) :: .record (.payload p) :: payloadEvents ps

/-- The trace of reading the chunks `cs` in turn and writing their content. -/
def chunkEvents : List StreamChunk → List Event
  | [] => []
  | c :: cs => .read (some (.chunk c)) :: .raw c.content :: chunkEvents cs

/-- A script of incoming process-output frames: `fs`, then `last`, then
whatever `rest` the connection holds beyond them. -/
def payloadScript (fs : List ProcessPayload) (last : ProcessPayload)
    (rest : List (Except String Frame)) : List (Except String Frame) :=
  fs.map (fun p => .ok (.payload p)) ++ .ok (.payload last) :: rest

/-- A script of incoming chunks: `cs`, then `last`, then `rest`. -/
def chunkScript (cs : List StreamChunk) (last : StreamChunk)
    (rest : List (Except String Frame)) : List (Except String Frame) :=
  cs.map (fun c => .ok (.chunk c)) ++ .ok (.chunk last) :: rest

/-- The trace of forwarding the reads `rs` of the local input: each read,
followed by the send of a content chunk with exactly its bytes when it
returned any. -/
def forwarded : List (List Byte × ReadErr) → List Event
  | [] => []
  | r :: rs =>
    .stdin r.1 r.2 ::
      ((if 0 < r.1.length then [Event.sent (.chunk ⟨r.1, none⟩) true] else []) ++ forwarded rs)

/-- The bytes of the local input up to its end: those of every burst up to
and including the first that reports `io.EOF`. -/
def inputBytes : Stdin → List Byte
  | [] => []
  | b :: rest => b.data ++ (if b.err = .eof then [] else inputBytes rest)

/-- The content of a sent message when it is a chunk without end-of-file
marker. -/
def Message.contentChunk : Message → Option (List Byte)
  | .chunk ⟨content, none⟩ => some content
  | _ => none

/-- A block of `n` zero bytes. -/
def zeros (n : Nat) : List Byte := List.replicate n 0

/-- A local input of 130 KiB available at once. -/
def input130KiB : Stdin := [⟨zeros (130 * 1024), .none⟩]

/-- The contents of the chunks among the frames `fs`, in order. -/
def chunkContents (fs : List Frame) : List (List Byte) :=
  fs.filterMap fun f => match f with
    | .chunk c => some c.content
    | _ => none

/-- No event of the trace renders anything received. -/
def NoRender (t : List Event) : Prop := ∀ e ∈ t, e.rendered = false

/-- An operation that awaits a message from the connection: a round trip
or a read. -/
def Event.isReceive : Event → Bool
  | .roundTrip _ _ => true
  | .read _ => true
  | _ => false

/-- The successful send of the end-of-file chunk of `streamStreamIn`. -/
def eofSent : Event := .sent (.chunk ⟨[], some true⟩) true

/-- The number of responses awaited from the connection during the run. -/
def awaited (t : List Event) : Nat := (t.filter Event.isReceive).length

/-- The number of receives performed before the end-of-file chunk is sent. -/
def receivesBeforeEof (t : List Event) : Nat :=
  ((t.takeWhile fun e => e != eofSent).filter Event.isReceive).length

/-! ## Connection settings -/

/-- The global flags as given on the command line: `none` when the flag
was not given. -/
structure Globals where
  network : Option String
  addr : Option String
  deriving DecidableEq, Repr

/-- `c.GlobalString(name)`: the value given for the flag, else the default
declared in `app.Flags`. -/
def Globals.globalString (g : Globals) (name : String) : String :=
  if name = "network" then g.network.getD "unix"
  else if name = "addr" then g.addr.getD "/tmp/warden.sock"
  else ""

/-- What `os.Open(shankRCFile)` and `decoder.Decode(&config)` meet:
`absent`, the file cannot be opened; `undecodable`, `Decode` returns an
error (an empty file, malformed JSON, a value that is neither `null` nor an
object whose members are strings or `null`); `null`, the file holds the JSON
value `null`; `object`, it holds a JSON object, given by its members in
order, a member value `none` being `null`. -/
inductive RCFile where
  | absent
  | undecodable (err : String)
  | null
  | object (members : List (String × Option String))
  deriving DecidableEq, Repr

/-- A `map[string]string`; a key not in the map reads as the empty string. -/
abbrev Config := String → String

/-- `decoder.Decode(&config)` on a JSON object: every member is stored into
the existing map in turn, a `null` member as the zero value of a string;
other keys are left as they are. -/
def decodeInto (members : List (String × Option String)) (config : Config) : Config :=
  members.foldl (fun m kv => fun k => if k = kv.1 then kv.2.getD "" else m k) config

/-- The `nil` map that `decoder.Decode(&config)` leaves in `config` on the
JSON value `null`: every key reads as the empty string. -/
def nilConfig : Config := fun _ => ""

/-- The value `connection.Info`. -/
structure Info where
  network : String
  addr : String
  deriving DecidableEq, Repr

/-- `connectionInfo`; a panic is the error result. -/
def connectionInfo (shankRCFile : String) (c : Globals) (file : RCFile) :
    Except String Info :=
  let config : Config := fun k =>
    if k = "network" then c.globalString "network"
    else if k = "addr" then c.globalString "addr"
    else ""
  match file with
  | .absent => .ok ⟨config "network", config "addr"⟩
  | .undecodable err => .error ("cannot decode " ++ shankRCFile ++ ": " ++ err)
  | .null =>
    let config := nilConfig
    .ok ⟨config "network", config "addr"⟩
  | .object members =>
    let config := decodeInto members config
    .ok ⟨config "network", config "addr"⟩

/-- The string the JSON object gives for `key`: that of its last member of
that name, if any, the empty string when that member is `null`. -/
def lastValue (key : String) : List (String × Option String) → Option String
  | [] => none
  | kv :: rest =>
    match lastValue key rest with
    | some v => some v
    | none => if kv.1 = key then some (kv.2.getD "") else none

/-! ## The command synthesizer -/

/-- `strings.HasSuffix`. -/
def hasSuffix (s suffix : String) : Bool :=
  decide (suffix.length ≤ s.length) && (s.data.drop (s.length - suffix.length) == suffix.data)

/-- `strings.TrimSuffix`. -/
def trimSuffix (s suffix : String) : String :=
  if hasSuffix s suffix then ⟨s.data.take (s.length - suffix.length)⟩ else s

/-- Modelled from the spec: `lowercase` is called by `generateCommand` and
defined in a file of the repository other than `main.go`; the spec says it
lower-cases the leading character of the name (`CreateRequest` gives
`create`, `NetInRequest` gives `netIn`) and never fails. -/
def lowercase (s : String) : String :=
  match s.data with
  | [] => ""
  | c :: cs => ⟨c.toLower :: cs⟩

/-- The parts of a `cli.Command` that `main.go` itself determines: its name
and its action (flags, usage and description come from `flagForField` and
`USAGE`, defined elsewhere). -/
structure Command where
  name : String
  action : Request → Except String Conn → Stdin → List Event × Fate

/-- `generateCommand`, given the name of the request type. -/
def generateCommand (typeName : String) : Command :=
  let commandName := lowercase (trimSuffix typeName "Request")
  { name := commandName, action := action commandName }

end Shank

/-! ## Theorems -/

namespace Shank

theorem clean_nil : Clean [] := by
  intro e he
  cases he

theorem clean_append {a b : List Event} (ha : Clean a) (hb : Clean b) : Clean (a ++ b) := by
  intro e he
  rcases List.mem_append.mp he with h | h
  · exact ha e h
  · exact hb e h

theorem clean_cons {e : Event} {t : List Event} (he : e.failed = false) (ht : Clean t) :
    Clean (e :: t) := by
  intro x hx
  rcases List.mem_cons.mp hx with h | h
  · exact h ▸ he
  · exact ht x h

theorem failStop_of_clean {t : List Event} (f : Fate) (ht : Clean t) : FailStop t f := by
  intro pre e post h he
  have hmem : e ∈ t := by
    rw [h]
    simp
  rw [ht e hmem] at he
  cases he

theorem failStop_cons {x : Event} {t : List Event} {f : Fate} (hx : x.failed = false)
    (ht : FailStop t f) : FailStop (x :: t) f := by
  intro pre e post h he
  cases pre with
  | nil =>
    simp only [List.nil_append, List.cons.injEq] at h
    rw [h.1, he] at hx
    cases hx
  | cons y pre1 =>
    simp only [List.cons_append, List.cons.injEq] at h
    exact ht pre1 e post h.2 he

theorem failStop_append {a t : List Event} {f : Fate} (ha : Clean a) (ht : FailStop t f) :
    FailStop (a ++ t) f := by
  induction a with
  | nil => simpa using ht
  | cons x a ih =>
    have hx : x.failed = false := ha x (by simp)
    have ha1 : Clean a := fun e he => ha e (by simp [he])
    simpa using failStop_cons hx (ih ha1)

theorem failStop_failure (e : Event) (line : String) :
    FailStop [e, Event.println line] (.exited 1) := by
  intro pre x post h hx
  cases pre with
  | nil =>
    simp only [List.nil_append, List.cons.injEq] at h
    exact ⟨rfl, ⟨line, h.2.symm⟩⟩
  | cons y pre1 =>
    simp only [List.cons_append, List.cons.injEq] at h
    cases pre1 with
    | nil =>
      simp only [List.nil_append, List.cons.injEq] at h
      rw [← h.2.1] at hx
      cases hx
    | cons z pre2 =>
      simp at h

theorem sound_failure (e : Event) (line : String) :
    Sound [e, Event.println line] (.exited 1) :=
  ⟨fun h => (by cases h), failStop_failure e line⟩

theorem sound_clean {t : List Event} (f : Fate) (ht : Clean t) : Sound t f :=
  ⟨fun _ => ht, failStop_of_clean f ht⟩

theorem sound_append {a t : List Event} {f : Fate} (ha : Clean a) (ht : Sound t f) :
    Sound (a ++ t) f :=
  ⟨fun h => clean_append ha (ht.1 h), failStop_append ha ht.2⟩

theorem streamProcessPayloadsLoop_sound (fuel : Nat) (conn : Conn) :
    Sound (streamProcessPayloadsLoop fuel conn).events (streamProcessPayloadsLoop fuel conn).fate := by
  induction fuel generalizing conn with
  | zero => exact sound_clean _ clean_nil
  | succ n ih =>
    unfold streamProcessPayloadsLoop
    rcases h : conn.readPayload with ⟨res, conn1⟩
    cases res with
    | error err => exact sound_failure _ _
    | ok payload =>
      simp only
      split
      · exact sound_clean _ (by intro e he; simp at he; rcases he with h | h <;> subst h <;> rfl)
      · exact sound_append (by intro e he; simp at he; rcases he with h | h <;> subst h <;> rfl)
          (ih conn1)

theorem streamStreamOutLoop_sound (fuel : Nat) (conn : Conn) :
    Sound (streamStreamOutLoop fuel conn).events (streamStreamOutLoop fuel conn).fate := by
  induction fuel generalizing conn with
  | zero => exact sound_clean _ clean_nil
  | succ n ih =>
    unfold streamStreamOutLoop
    rcases h : conn.readChunk with ⟨res, conn1⟩
    cases res with
    | error err => exact sound_failure _ _
    | ok payload =>
      simp only
      split
      · exact sound_clean _ (by intro e he; simp at he; rcases he with h | h <;> subst h <;> rfl)
      · exact sound_append (by intro e he; simp at he; rcases he with h | h <;> subst h <;> rfl)
          (ih conn1)

theorem clean_stdin (data : List Byte) (err : ReadErr) : Clean [Event.stdin data err] := by
  intro e he
  simp at he
  subst he
  rfl

theorem streamStreamInLoop_sound (fuel : Nat) (conn : Conn) (input : Stdin) :
    Sound (streamStreamInLoop fuel conn input).1.events
      (streamStreamInLoop fuel conn input).1.fate := by
  induction fuel generalizing conn input with
  | zero => exact sound_clean _ clean_nil
  | succ n ih =>
    unfold streamStreamInLoop
    rcases hr : stdinRead bufSize input with ⟨⟨data, err⟩, input1⟩
    simp only
    by_cases hn : 0 < data.length
    · simp only [hn, if_true]
      rcases hs : conn.sendMessage with ⟨res, conn1⟩
      cases res with
      | some e =>
        simp only [Run.after]
        exact sound_append (clean_stdin data err) (sound_failure _ _)
      | none =>
        simp only
        cases err with
        | eof =>
          simp only
          rcases hs2 : conn1.sendMessage with ⟨res2, conn2⟩
          cases res2 with
          | some e2 =>
            simp only [List.append_assoc]
            exact sound_append (clean_stdin data _)
              (sound_append (by intro e he; simp at he; subst he; rfl) (sound_failure _ _))
          | none =>
            simp only
            exact sound_clean _ (by
              intro e he
              simp at he
              rcases he with h | h | h <;> subst h <;> rfl)
        | other cause =>
          simp only
          exact sound_clean _ (by
            intro e he
            simp at he
            rcases he with h | h | h <;> subst h <;> rfl)
        | none =>
          simp only [Run.after]
          exact sound_append (by
            intro e he
            simp at he
            rcases he with h | h <;> subst h <;> rfl) (ih conn1 input1)
    · simp only [hn, if_false]
      cases err with
      | eof =>
        simp only
        rcases hs2 : conn.sendMessage with ⟨res2, conn2⟩
        cases res2 with
        | some e2 =>
          simp only [List.append_nil]
          exact sound_append (clean_stdin data _) (sound_failure _ _)
        | none =>
          simp only
          exact sound_clean _ (by
            intro e he
            simp at he
            rcases he with h | h <;> subst h <;> rfl)
      | other cause =>
        simp only
        exact sound_clean _ (by
          intro e he
          simp at he
          rcases he with h | h <;> subst h <;> rfl)
      | none =>
        simp only [Run.after]
        exact sound_append (by
          intro e he
          simp at he
          subst he
          rfl) (ih conn input1)

theorem streamStreamIn_sound (conn : Conn) (input : Stdin) :
    Sound (streamStreamIn conn input).events (streamStreamIn conn input).fate := by
  unfold streamStreamIn
  have hl := streamStreamInLoop_sound (readsBound input + 1) conn input
  rcases hloop : streamStreamInLoop (readsBound input + 1) conn input with ⟨loop, rest⟩
  rw [hloop] at hl
  simp only at hl ⊢
  rcases loop with ⟨ev, fate, c⟩
  cases fate with
  | returned =>
    simp only at hl ⊢
    have hc : Clean ev := hl.1 rfl
    rcases hrd : c.readResponse with ⟨res, conn1⟩
    cases res with
    | error err => exact sound_append hc (sound_failure _ _)
    | ok resp =>
      exact sound_clean _ (clean_append hc (by intro e he; simp at he; subst he; rfl))
  | exited code => exact hl
  | outOfFuel => exact hl

theorem action_sound (commandName : String) (request : Request)
    (provided : Except String Conn) (input : Stdin) :
    Sound (action commandName request provided input).1
      (action commandName request provided input).2 := by
  unfold action
  cases provided with
  | error err =>
    exact sound_clean _ (by intro e he; simp at he; subst he; rfl)
  | ok conn =>
    simp only
    split
    · rcases hs : conn.sendMessage with ⟨res, conn1⟩
      cases res with
      | some err => exact sound_failure _ _
      | none =>
        simp only [Run.after]
        exact sound_append (by intro e he; simp at he; subst he; rfl)
          (streamProcessPayloadsLoop_sound _ conn1)
    · rcases hs : conn.roundTrip with ⟨res, conn1⟩
      cases res with
      | error err => exact sound_failure _ _
      | ok response =>
        have hrt : Clean [Event.roundTrip request (some response)] := by
          intro e he
          simp at he
          subst he
          rfl
        simp only [Run.after]
        split
        · exact sound_append hrt (streamStreamOutLoop_sound _ conn1)
        · split
          · exact sound_append hrt (streamStreamIn_sound conn1 input)
          · have henc : Clean ([Event.roundTrip request (some response)] ++
                [Event.record (.response response)]) :=
              clean_append hrt (by intro e he; simp at he; subst he; rfl)
            split
            · exact sound_append henc (streamProcessPayloadsLoop_sound _ conn1)
            · exact sound_clean _ henc

/-- C4: in every exchange pattern (any command name), when a connection
operation `e` of the run fails (the K-th one, K - 1 being the number of
connection operations in `pre`), the command ends by `os.Exit(1)`, and all
that follows the failure is the one line reporting it: no send, round trip
or read, and no record or chunk bytes. -/
theorem failure_at_step_is_fatal (commandName : String) (request : Request)
    (provided : Except String Conn) (input : Stdin) (pre post : List Event) (e : Event)
    (h : (action commandName request provided input).1 = pre ++ e :: post)
    (he : e.failed = true) :
    (action commandName request provided input).2 = .exited 1 ∧
      (∀ x ∈ post, x.isConnOp = false ∧ x.rendered = false) ∧
      ∃ line, post = [Event.println line] := by
  obtain ⟨hexit, line, hpost⟩ := (action_sound commandName request provided input).2 pre e post h he
  refine ⟨hexit, ?_, line, hpost⟩
  intro x hx
  rw [hpost] at hx
  simp at hx
  subst hx
  exact ⟨rfl, rfl⟩

/-- C4 at a run exchange whose third connection operation, the read of
the second process-output frame, fails. -/
theorem failure_at_step_is_fatal_witness :
    (action "run" ⟨"RunRequest", []⟩
        (.ok ⟨[], [.ok (.response "ok"), .ok (.payload ⟨some 1, some 0, some "out", none⟩),
          .error "broken pipe", .ok (.payload ⟨some 1, none, none, some 0⟩)]⟩) []).2 = .exited 1 ∧
      (∀ x ∈ [Event.println "stream failed: broken pipe"],
        x.isConnOp = false ∧ x.rendered = false) ∧
      ∃ line, [Event.println "stream failed: broken pipe"] = [Event.println line] :=
  failure_at_step_is_fatal "run" ⟨"RunRequest", []⟩
    (.ok ⟨[], [.ok (.response "ok"), .ok (.payload ⟨some 1, some 0, some "out", none⟩),
      .error "broken pipe", .ok (.payload ⟨some 1, none, none, some 0⟩)]⟩) []
    [.roundTrip ⟨"RunRequest", []⟩ (some "ok"), .record (.response "ok"),
      .read (some (.payload ⟨some 1, some 0, some "out", none⟩)),
      .record (.payload ⟨some 1, some 0, some "out", none⟩)]
    [.println "stream failed: broken pipe"] (.read none) (by decide) rfl

theorem streamProcessPayloadsLoop_script (fs : List ProcessPayload) (last : ProcessPayload)
    (hfs : ∀ f ∈ fs, f.exitStatus = none) (hlast : last.exitStatus ≠ none)
    (fuel : Nat) (hfuel : fs.length < fuel) (sends : List (Option String))
    (rest : List (Except String Frame)) :
    streamProcessPayloadsLoop fuel
        ⟨sends, fs.map (fun p => .ok (.payload p)) ++ .ok (.payload last) :: rest⟩ =
      ⟨payloadEvents (fs ++ [last]), .returned, ⟨sends, rest⟩⟩ := by
  induction fs generalizing fuel with
  | nil =>
    cases fuel with
    | zero => cases hfuel
    | succ n =>
      simp [streamProcessPayloadsLoop, Conn.readPayload, Conn.recv, hlast, payloadEvents]
  | cons f fs ih =>
    cases fuel with
    | zero => cases hfuel
    | succ n =>
      have hf : f.exitStatus = none := hfs f (by simp)
      have hrest : ∀ g ∈ fs, g.exitStatus = none := fun g hg => hfs g (by simp [hg])
      have hn : fs.length < n := by simpa using hfuel
      simp [streamProcessPayloadsLoop, Conn.readPayload, Conn.recv, hf, payloadEvents,
        Run.after, ih hrest n hn]

theorem streamProcessPayloads_script (fs : List ProcessPayload) (last : ProcessPayload)
    (hfs : ∀ f ∈ fs, f.exitStatus = none) (hlast : last.exitStatus ≠ none)
    (sends : List (Option String)) (rest : List (Except String Frame)) :
    streamProcessPayloads
        ⟨sends, fs.map (fun p => .ok (.payload p)) ++ .ok (.payload last) :: rest⟩ =
      ⟨payloadEvents (fs ++ [last]), .returned, ⟨sends, rest⟩⟩ := by
  unfold streamProcessPayloads
  exact streamProcessPayloadsLoop_script fs last hfs hlast _ (by simp; omega) sends rest

theorem records_payloadEvents (ps : List ProcessPayload) :
    records (payloadEvents ps) = ps.map Frame.payload := by
  induction ps with
  | nil => rfl
  | cons p ps ih => simpa [records, payloadEvents] using ih

theorem received_payloadEvents (ps : List ProcessPayload) :
    received (payloadEvents ps) = ps.map Frame.payload := by
  induction ps with
  | nil => rfl
  | cons p ps ih => simpa [received, payloadEvents] using ih

theorem readCount_payloadEvents (ps : List ProcessPayload) :
    readCount (payloadEvents ps) = ps.length := by
  induction ps with
  | nil => rfl
  | cons p ps ih => simpa [readCount, payloadEvents] using ih

theorem roundTripCount_payloadEvents (ps : List ProcessPayload) :
    roundTripCount (payloadEvents ps) = 0 := by
  induction ps with
  | nil => rfl
  | cons p ps ih => simpa [roundTripCount, payloadEvents] using ih

theorem roundTrip_ok (sends : List (Option String)) (hw : sends.headD none = none)
    (response : String) (rest : List (Except String Frame)) :
    Conn.roundTrip ⟨sends, .ok (.response response) :: rest⟩ = (.ok response, ⟨sends.tail, rest⟩) := by
  cases sends with
  | nil => simp [Conn.roundTrip, Conn.sendMessage, Conn.readResponse, Conn.recv]
  | cons o os =>
    simp only [List.headD_cons] at hw
    subst hw
    simp [Conn.roundTrip, Conn.sendMessage, Conn.readResponse, Conn.recv]

theorem sendMessage_ok (sends : List (Option String)) (hw : sends.headD none = none)
    (recvs : List (Except String Frame)) :
    Conn.sendMessage ⟨sends, recvs⟩ = (none, ⟨sends.tail, recvs⟩) := by
  cases sends with
  | nil => simp [Conn.sendMessage]
  | cons o os =>
    simp only [List.headD_cons] at hw
    subst hw
    simp [Conn.sendMessage]

theorem action_run_script (request : Request) (response : String)
    (fs : List ProcessPayload) (last : ProcessPayload) (sends : List (Option String))
    (rest : List (Except String Frame)) (input : Stdin)
    (hw : sends.headD none = none) (hfs : ∀ f ∈ fs, f.exitStatus = none)
    (hlast : last.exitStatus ≠ none) :
    action "run" request (.ok ⟨sends, .ok (.response response) :: payloadScript fs last rest⟩)
        input =
      (.roundTrip request (some response) :: .record (.response response) ::
        payloadEvents (fs ++ [last]), .returned) := by
  simp [action, roundTrip_ok sends hw, payloadScript, Run.after,
    streamProcessPayloads_script fs last hfs hlast]

/-- C1: the run command over a connection that answers the round trip with
`response` and then delivers the frames `fs` (no exit status) and `last`
(exit status present, whatever its value): the trace is the round trip, the
record of the response, then for each frame in arrival order one read and
one record; so `fs.length + 2` records are written, `fs.length + 1` reads
are made, none after `last` (even when the connection holds more, `rest`),
and the command returns. -/
theorem run_renders_response_then_frames (request : Request) (response : String)
    (fs : List ProcessPayload) (last : ProcessPayload) (sends : List (Option String))
    (rest : List (Except String Frame)) (input : Stdin)
    (hw : sends.headD none = none) (hfs : ∀ f ∈ fs, f.exitStatus = none)
    (hlast : last.exitStatus ≠ none) :
    action "run" request (.ok ⟨sends, .ok (.response response) :: payloadScript fs last rest⟩)
        input =
      (.roundTrip request (some response) :: .record (.response response) ::
        payloadEvents (fs ++ [last]), .returned) ∧
    records (action "run" request
        (.ok ⟨sends, .ok (.response response) :: payloadScript fs last rest⟩) input).1 =
      .response response :: (fs ++ [last]).map Frame.payload ∧
    (records (action "run" request
        (.ok ⟨sends, .ok (.response response) :: payloadScript fs last rest⟩) input).1).length =
      (fs ++ [last]).length + 1 ∧
    readCount (action "run" request
        (.ok ⟨sends, .ok (.response response) :: payloadScript fs last rest⟩) input).1 =
      (fs ++ [last]).length := by
  rw [action_run_script request response fs last sends rest input hw hfs hlast]
  have hrec : records (.roundTrip request (some response) :: .record (.response response) ::
      payloadEvents (fs ++ [last])) = .response response :: (fs ++ [last]).map Frame.payload := by
    have h := records_payloadEvents (fs ++ [last])
    simpa [records] using h
  have hcnt : readCount (.roundTrip request (some response) :: .record (.response response) ::
      payloadEvents (fs ++ [last])) = (fs ++ [last]).length := by
    have h := readCount_payloadEvents (fs ++ [last])
    simpa [readCount] using h
  refine ⟨rfl, hrec, ?_, hcnt⟩
  rw [hrec]
  simp

/-- C1 at the script response, frame, frame, frame with exit status 0:
four records, three reads, no fourth read. -/
theorem run_renders_response_then_frames_witness :
    action "run" ⟨"RunRequest", [("handle", "h1")]⟩
        (.ok ⟨[], [.ok (.response "ok"), .ok (.payload ⟨some 1, some 0, some "a", none⟩),
          .ok (.payload ⟨some 1, some 1, some "b", none⟩),
          .ok (.payload ⟨some 1, none, none, some 0⟩)]⟩) [] =
      ([.roundTrip ⟨"RunRequest", [("handle", "h1")]⟩ (some "ok"), .record (.response "ok"),
        .read (some (.payload ⟨some 1, some 0, some "a", none⟩)),
        .record (.payload ⟨some 1, some 0, some "a", none⟩),
        .read (some (.payload ⟨some 1, some 1, some "b", none⟩)),
        .record (.payload ⟨some 1, some 1, some "b", none⟩),
        .read (some (.payload ⟨some 1, none, none, some 0⟩)),
        .record (.payload ⟨some 1, none, none, some 0⟩)], .returned) :=
  (run_renders_response_then_frames ⟨"RunRequest", [("handle", "h1")]⟩ "ok"
    [⟨some 1, some 0, some "a", none⟩, ⟨some 1, some 1, some "b", none⟩]
    ⟨some 1, none, none, some 0⟩ [] [] [] rfl (by decide) (by decide)).1

/-- C9: the attach command over a connection that delivers the frames
`fs` (no exit status) and then `last` (exit status present): the request
is sent by `SendMessage` and no round trip is made; the first message read
is consumed as a process-output frame; each frame up to and including
`last` is read and rendered in order, so the reads are as many as the
records, and nothing is read after `last`. -/
theorem attach_streams_without_round_trip (request : Request)
    (fs : List ProcessPayload) (last : ProcessPayload) (sends : List (Option String))
    (rest : List (Except String Frame)) (input : Stdin)
    (hw : sends.headD none = none) (hfs : ∀ f ∈ fs, f.exitStatus = none)
    (hlast : last.exitStatus ≠ none) :
    action "attach" request (.ok ⟨sends, payloadScript fs last rest⟩) input =
      (.sent (.request request) true :: payloadEvents (fs ++ [last]), .returned) ∧
    records (action "attach" request (.ok ⟨sends, payloadScript fs last rest⟩) input).1 =
      (fs ++ [last]).map Frame.payload ∧
    readCount (action "attach" request (.ok ⟨sends, payloadScript fs last rest⟩) input).1 =
      (records (action "attach" request
        (.ok ⟨sends, payloadScript fs last rest⟩) input).1).length ∧
    roundTripCount (action "attach" request
        (.ok ⟨sends, payloadScript fs last rest⟩) input).1 = 0 := by
  have hact : action "attach" request (.ok ⟨sends, payloadScript fs last rest⟩) input =
      (.sent (.request request) true :: payloadEvents (fs ++ [last]), .returned) := by
    simp [action, sendMessage_ok sends hw, payloadScript, Run.after,
      streamProcessPayloads_script fs last hfs hlast]
  rw [hact]
  have hrec : records (.sent (.request request) true :: payloadEvents (fs ++ [last])) =
      (fs ++ [last]).map Frame.payload := by
    have h := records_payloadEvents (fs ++ [last])
    simpa [records] using h
  have hcnt : readCount (.sent (.request request) true :: payloadEvents (fs ++ [last])) =
      (fs ++ [last]).length := by
    have h := readCount_payloadEvents (fs ++ [last])
    simpa [readCount] using h
  have hrt : roundTripCount (.sent (.request request) true :: payloadEvents (fs ++ [last])) =
      0 := by
    have h := roundTripCount_payloadEvents (fs ++ [last])
    simpa [roundTripCount] using h
  refine ⟨rfl, hrec, ?_, hrt⟩
  rw [hrec, hcnt]
  simp

/-- C9 at a connection delivering one frame without exit status and one
with exit status 3, followed by a frame that is never read. -/
theorem attach_streams_without_round_trip_witness :
    action "attach" ⟨"AttachRequest", []⟩
        (.ok ⟨[], [.ok (.payload ⟨some 7, some 0, some "x", none⟩),
          .ok (.payload ⟨some 7, none, none, some 3⟩),
          .ok (.payload ⟨some 7, some 0, some "late", none⟩)]⟩) [] =
      ([.sent (.request ⟨"AttachRequest", []⟩) true,
        .read (some (.payload ⟨some 7, some 0, some "x", none⟩)),
        .record (.payload ⟨some 7, some 0, some "x", none⟩),
        .read (some (.payload ⟨some 7, none, none, some 3⟩)),
        .record (.payload ⟨some 7, none, none, some 3⟩)], .returned) :=
  (attach_streams_without_round_trip ⟨"AttachRequest", []⟩
    [⟨some 7, some 0, some "x", none⟩] ⟨some 7, none, none, some 3⟩ []
    [.ok (.payload ⟨some 7, some 0, some "late", none⟩)] [] rfl (by decide) (by decide)).1

/-- C8: a command whose name is none of attach, run, streamOut, streamIn,
over a connection that answers the round trip with `response`: the trace is
exactly one round trip and one record, that response; no read and no send
follows, whatever the connection still holds, and the command returns. -/
theorem simple_one_round_trip_one_record (commandName : String) (request : Request)
    (response : String) (sends : List (Option String)) (rest : List (Except String Frame))
    (input : Stdin) (hw : sends.headD none = none)
    (h1 : commandName ≠ "attach") (h2 : commandName ≠ "run")
    (h3 : commandName ≠ "streamOut") (h4 : commandName ≠ "streamIn") :
    action commandName request (.ok ⟨sends, .ok (.response response) :: rest⟩) input =
      ([.roundTrip request (some response), .record (.response response)], .returned) := by
  simp [action, roundTrip_ok sends hw, h1, h2, h3, h4]

/-- C8 at the echo command, with a further frame pending on the connection. -/
theorem simple_one_round_trip_one_record_witness :
    action "echo" ⟨"EchoRequest", [("message", "hello")]⟩
        (.ok ⟨[none], [.ok (.response "hello"), .ok (.response "unread")]⟩) [] =
      ([.roundTrip ⟨"EchoRequest", [("message", "hello")]⟩ (some "hello"),
        .record (.response "hello")], .returned) :=
  simple_one_round_trip_one_record "echo" ⟨"EchoRequest", [("message", "hello")]⟩ "hello"
    [none] [.ok (.response "unread")] [] rfl (by decide) (by decide) (by decide) (by decide)

theorem streamStreamOutLoop_script (cs : List StreamChunk) (last : StreamChunk)
    (hcs : ∀ c ∈ cs, c.eof = none) (hlast : last.eof ≠ none)
    (fuel : Nat) (hfuel : cs.length < fuel) (sends : List (Option String))
    (rest : List (Except String Frame)) :
    streamStreamOutLoop fuel ⟨sends, chunkScript cs last rest⟩ =
      ⟨chunkEvents (cs ++ [last]), .returned, ⟨sends, rest⟩⟩ := by
  induction cs generalizing fuel with
  | nil =>
    cases fuel with
    | zero => cases hfuel
    | succ n =>
      simp [streamStreamOutLoop, chunkScript, Conn.readChunk, Conn.recv, hlast, chunkEvents,
        StreamChunk.getContent]
  | cons c cs ih =>
    cases fuel with
    | zero => cases hfuel
    | succ n =>
      have hc : c.eof = none := hcs c (by simp)
      have hrest : ∀ g ∈ cs, g.eof = none := fun g hg => hcs g (by simp [hg])
      have hn : cs.length < n := by simpa using hfuel
      have h := ih hrest n hn
      simp only [chunkScript] at h
      simp [streamStreamOutLoop, chunkScript, Conn.readChunk, Conn.recv, hc, chunkEvents,
        Run.after, StreamChunk.getContent, h]

theorem streamStreamOut_script (cs : List StreamChunk) (last : StreamChunk)
    (hcs : ∀ c ∈ cs, c.eof = none) (hlast : last.eof ≠ none)
    (sends : List (Option String)) (rest : List (Except String Frame)) :
    streamStreamOut ⟨sends, chunkScript cs last rest⟩ =
      ⟨chunkEvents (cs ++ [last]), .returned, ⟨sends, rest⟩⟩ := by
  unfold streamStreamOut
  exact streamStreamOutLoop_script cs last hcs hlast _ (by simp [chunkScript]; omega) sends rest

theorem stdoutBytes_chunkEvents (json : Frame → List Byte) (text : String → List Byte)
    (cs : List StreamChunk) :
    stdoutBytes json text (chunkEvents cs) = (cs.map StreamChunk.content).flatten := by
  induction cs with
  | nil => rfl
  | cons c cs ih => simp [chunkEvents, stdoutBytes, ih]

theorem records_chunkEvents (cs : List StreamChunk) : records (chunkEvents cs) = [] := by
  induction cs with
  | nil => rfl
  | cons c cs ih => simpa [records, chunkEvents] using ih

theorem readCount_chunkEvents (cs : List StreamChunk) :
    readCount (chunkEvents cs) = cs.length := by
  induction cs with
  | nil => rfl
  | cons c cs ih => simpa [readCount, chunkEvents] using ih

/-- C3: the streamOut command over a connection that answers the round
trip with `response`, then delivers the chunks `cs` (no end-of-file marker)
and one chunk with the marker and no content: the trace is the round trip
and, per chunk in arrival order, one read and one raw write of its content;
the bytes on standard output are exactly the contents of `cs` concatenated,
whatever the rendering of records and lines would be; no record is written;
`cs.length + 1` reads are made, none after the end-of-file chunk. -/
theorem streamOut_writes_exactly_the_contents (request : Request) (response : String)
    (cs : List StreamChunk) (mark : Bool) (sends : List (Option String))
    (rest : List (Except String Frame)) (input : Stdin)
    (hw : sends.headD none = none) (hcs : ∀ c ∈ cs, c.eof = none) :
    action "streamOut" request
        (.ok ⟨sends, .ok (.response response) :: chunkScript cs ⟨[], some mark⟩ rest⟩) input =
      (.roundTrip request (some response) :: chunkEvents (cs ++ [⟨[], some mark⟩]), .returned) ∧
    (∀ (json : Frame → List Byte) (text : String → List Byte),
      stdoutBytes json text (action "streamOut" request
        (.ok ⟨sends, .ok (.response response) :: chunkScript cs ⟨[], some mark⟩ rest⟩) input).1 =
      (cs.map StreamChunk.content).flatten) ∧
    records (action "streamOut" request
        (.ok ⟨sends, .ok (.response response) :: chunkScript cs ⟨[], some mark⟩ rest⟩) input).1 =
      [] ∧
    readCount (action "streamOut" request
        (.ok ⟨sends, .ok (.response response) :: chunkScript cs ⟨[], some mark⟩ rest⟩) input).1 =
      cs.length + 1 := by
  have hact : action "streamOut" request
      (.ok ⟨sends, .ok (.response response) :: chunkScript cs ⟨[], some mark⟩ rest⟩) input =
      (.roundTrip request (some response) :: chunkEvents (cs ++ [⟨[], some mark⟩]),
        .returned) := by
    simp [action, roundTrip_ok sends hw, Run.after,
      streamStreamOut_script cs ⟨[], some mark⟩ hcs (by simp)]
  rw [hact]
  refine ⟨rfl, ?_, ?_, ?_⟩
  · intro json text
    simp [stdoutBytes, stdoutBytes_chunkEvents]
  · have h := records_chunkEvents (cs ++ [⟨[], some mark⟩])
    simpa [records] using h
  · have h := readCount_chunkEvents (cs ++ [⟨[], some mark⟩])
    simpa [readCount] using h

/-- C3 at the script response, chunk "ab", chunk "cd", end-of-file chunk:
standard output receives the four bytes of abcd and nothing else, here
with a record rendered as three bytes and a line as two. -/
theorem streamOut_writes_exactly_the_contents_witness :
    stdoutBytes (fun _ => [123, 125, 10]) (fun _ => [33, 10])
      (action "streamOut" ⟨"StreamOutRequest", []⟩
        (.ok ⟨[], [.ok (.response "ok"), .ok (.chunk ⟨[97, 98], none⟩),
          .ok (.chunk ⟨[99, 100], none⟩), .ok (.chunk ⟨[], some true⟩)]⟩) []).1 =
      [97, 98, 99, 100] :=
  (streamOut_writes_exactly_the_contents ⟨"StreamOutRequest", []⟩ "ok"
    [⟨[97, 98], none⟩, ⟨[99, 100], none⟩] true [] [] [] rfl (by decide)).2.1
    (fun _ => [123, 125, 10]) (fun _ => [33, 10])

theorem sendMessage_quiet (conn : Conn) (hs : ∀ o ∈ conn.sends, o = none) :
    conn.sendMessage = (none, ⟨conn.sends.tail, conn.recvs⟩) := by
  rcases conn with ⟨sends, recvs⟩
  cases sends with
  | nil => rfl
  | cons o os =>
    have ho : o = none := hs o (by simp)
    subst ho
    rfl

theorem tail_quiet {sends : List (Option String)} (hs : ∀ o ∈ sends, o = none) :
    ∀ o ∈ sends.tail, o = none :=
  fun o ho => hs o (List.mem_of_mem_tail ho)

theorem bufSize_pos : 0 < bufSize := by decide

theorem streamStreamInLoop_forwards (fuel : Nat) :
    ∀ (conn : Conn) (input : Stdin), readsBound input < fuel →
      (∀ o ∈ conn.sends, o = none) → (∀ b ∈ input, ∀ c, b.err ≠ .other c) →
      ∃ reads sends1 input1,
        streamStreamInLoop fuel conn input =
          (⟨forwarded reads ++ [.sent (.chunk ⟨[], some true⟩) true], .returned,
            ⟨sends1, conn.recvs⟩⟩, input1) ∧
        (∀ r ∈ reads, r.1.length ≤ bufSize) ∧
        (reads.map Prod.fst).flatten = inputBytes input := by
  induction fuel with
  | zero =>
    intro conn input h
    cases h
  | succ n ih =>
    intro conn input hfuel hs hin
    have hs1 := tail_quiet hs
    have hs2 := tail_quiet hs1
    have hsend1 := sendMessage_quiet conn hs
    have hsend2 := sendMessage_quiet ⟨conn.sends.tail, conn.recvs⟩ hs1
    cases input with
    | nil =>
      refine ⟨[([], .eof)], conn.sends.tail, [], ?_, ?_, ?_⟩
      · simp [streamStreamInLoop, stdinRead, hsend1, forwarded]
      · simp
      · simp [inputBytes]
    | cons b rest =>
      rcases b with ⟨data, err⟩
      have hrest : ∀ b ∈ rest, ∀ c, b.err ≠ .other c := fun b hb => hin b (by simp [hb])
      by_cases hfit : data.length ≤ bufSize
      · cases err with
        | other c => exact absurd rfl (hin ⟨data, .other c⟩ (by simp) c)
        | eof =>
          by_cases hpos : 0 < data.length
          · refine ⟨[(data, .eof)], conn.sends.tail.tail, rest, ?_, ?_, ?_⟩
            · simp [streamStreamInLoop, stdinRead, hfit, hpos, hsend1, hsend2, forwarded]
            · simpa using hfit
            · simp [inputBytes]
          · refine ⟨[(data, .eof)], conn.sends.tail, rest, ?_, ?_, ?_⟩
            · simp [streamStreamInLoop, stdinRead, hfit, hpos, hsend1, forwarded]
            · simpa using hfit
            · simp [inputBytes]
        | none =>
          have hb : readsBound rest < n := by
            simp [readsBound] at hfuel ⊢
            omega
          by_cases hpos : 0 < data.length
          · obtain ⟨reads, sends1, input1, hloop, hlen, hbytes⟩ :=
              ih ⟨conn.sends.tail, conn.recvs⟩ rest hb hs1 hrest
            refine ⟨(data, .none) :: reads, sends1, input1, ?_, ?_, ?_⟩
            · simp [streamStreamInLoop, stdinRead, hfit, hpos, hsend1, forwarded, hloop,
                Run.after]
            · intro r hr
              rcases List.mem_cons.mp hr with h | h
              · subst h
                exact hfit
              · exact hlen r h
            · simp [inputBytes, hbytes]
          · obtain ⟨reads, sends1, input1, hloop, hlen, hbytes⟩ := ih conn rest hb hs hrest
            refine ⟨(data, .none) :: reads, sends1, input1, ?_, ?_, ?_⟩
            · simp [streamStreamInLoop, stdinRead, hfit, hpos, forwarded, hloop, Run.after]
            · intro r hr
              rcases List.mem_cons.mp hr with h | h
              · subst h
                exact hfit
              · exact hlen r h
            · simp [inputBytes, hbytes]
      · have hgt : bufSize < data.length := Nat.lt_of_not_le hfit
        have hb : readsBound (⟨data.drop bufSize, err⟩ :: rest) < n := by
          have := bufSize_pos
          simp [readsBound] at hfuel ⊢
          omega
        have hin1 : ∀ b ∈ (⟨data.drop bufSize, err⟩ :: rest : Stdin), ∀ c, b.err ≠ .other c := by
          intro b hb c
          rcases List.mem_cons.mp hb with h | h
          · subst h
            exact hin ⟨data, err⟩ (by simp) c
          · exact hrest b h c
        have htake : (data.take bufSize).length = bufSize := by
          simp [List.length_take]
          omega
        have hpos : 0 < (data.take bufSize).length := by
          rw [htake]
          exact bufSize_pos
        obtain ⟨reads, sends1, input1, hloop, hlen, hbytes⟩ :=
          ih ⟨conn.sends.tail, conn.recvs⟩ _ hb hs1 hin1
        refine ⟨(data.take bufSize, .none) :: reads, sends1, input1, ?_, ?_, ?_⟩
        · simp only [streamStreamInLoop, stdinRead, hfit, if_false, hpos, if_true, hsend1,
            hloop, Run.after, forwarded]
          simp
        · intro r hr
          rcases List.mem_cons.mp hr with h | h
          · subst h
            exact Nat.le_of_eq htake
          · exact hlen r h
        · simp only [List.map_cons, List.flatten_cons, hbytes, inputBytes]
          rw [← List.append_assoc, List.take_append_drop]

theorem localReads_forwarded (rs : List (List Byte × ReadErr)) (tail : List Event)
    (htail : localReads tail = []) : localReads (forwarded rs ++ tail) = rs := by
  induction rs with
  | nil => simpa [forwarded] using htail
  | cons r rs ih =>
    have ih1 : List.filterMap (fun e => match e with
        | Event.stdin d err => some (d, err)
        | _ => none) (forwarded rs ++ tail) = rs := ih
    by_cases hpos : 0 < r.1.length
    · simp [forwarded, localReads, hpos, ih1]
    · simp [forwarded, localReads, hpos, ih1]

theorem sentMessages_forwarded (rs : List (List Byte × ReadErr)) :
    sentMessages (forwarded rs) =
      (rs.filter fun r => 0 < r.1.length).map fun r => Message.chunk ⟨r.1, none⟩ := by
  induction rs with
  | nil => rfl
  | cons r rs ih =>
    have ih1 : List.filterMap (fun e => match e with
        | Event.sent m _ => some m
        | _ => none) (forwarded rs) =
        (rs.filter fun r => 0 < r.1.length).map fun r => Message.chunk ⟨r.1, none⟩ := ih
    by_cases hpos : 0 < r.1.length
    · simp [forwarded, sentMessages, hpos, ih1]
    · simp [forwarded, sentMessages, hpos, ih1]

theorem readCount_forwarded (rs : List (List Byte × ReadErr)) :
    readCount (forwarded rs) = 0 := by
  induction rs with
  | nil => rfl
  | cons r rs ih =>
    have ih1 : (List.filter (fun e => match e with
        | Event.read _ => true
        | _ => false) (forwarded rs)).length = 0 := ih
    by_cases hpos : 0 < r.1.length
    · simpa [forwarded, readCount, hpos] using ih1
    · simpa [forwarded, readCount, hpos] using ih1

theorem contents_of_chunks (rs : List (List Byte × ReadErr)) :
    (((rs.filter fun r => 0 < r.1.length).map fun r => Message.chunk ⟨r.1, none⟩) ++
        [Message.chunk ⟨[], some true⟩]).filterMap Message.contentChunk =
      (rs.filter fun r => 0 < r.1.length).map Prod.fst := by
  induction rs with
  | nil => simp [Message.contentChunk]
  | cons r rs ih =>
    by_cases hpos : 0 < r.1.length
    · simpa [hpos, Message.contentChunk] using ih
    · simpa [hpos] using ih

theorem flatten_nonempty (rs : List (List Byte × ReadErr)) :
    ((rs.filter fun r => 0 < r.1.length).map Prod.fst).flatten = (rs.map Prod.fst).flatten := by
  induction rs with
  | nil => rfl
  | cons r rs ih =>
    by_cases hpos : 0 < r.1.length
    · simp [hpos, ih]
    · have hnil : r.1 = [] := by
        cases hr : r.1 with
        | nil => rfl
        | cons x xs => simp [hr] at hpos
      simp [hpos, ih, hnil]

theorem streamStreamIn_script (conn : Conn) (input : Stdin) (resp : String)
    (rest : List (Except String Frame))
    (hs : ∀ o ∈ conn.sends, o = none) (hin : ∀ b ∈ input, ∀ c, b.err ≠ .other c)
    (hr : conn.recvs = .ok (.response resp) :: rest) :
    ∃ reads sends1,
      streamStreamIn conn input =
        ⟨forwarded reads ++ [.sent (.chunk ⟨[], some true⟩) true, .read (some (.response resp))],
          .returned, ⟨sends1, rest⟩⟩ ∧
      (∀ r ∈ reads, r.1.length ≤ bufSize) ∧
      (reads.map Prod.fst).flatten = inputBytes input := by
  obtain ⟨reads, sends1, input1, hloop, hlen, hbytes⟩ :=
    streamStreamInLoop_forwards (readsBound input + 1) conn input (Nat.lt_succ_self _) hs hin
  refine ⟨reads, sends1, ?_, hlen, hbytes⟩
  simp [streamStreamIn, hloop, hr, Conn.readResponse, Conn.recv]

/-- C2: `streamStreamIn` over any local input that reaches its end without
a read error, on a connection whose writes are delivered and which then
holds a response: the trace is, per read of the local input, that read
followed by the send of one content chunk carrying exactly its bytes when
it returned any, then the send of one chunk carrying only the end-of-file
marker, then one read of the response.  So the messages sent are one
content chunk per non-empty read and the end-of-file chunk; every content
chunk is non-empty and at most 65536 bytes long; the contents concatenated
are the bytes of the input; exactly one response is read; and the function
returns. -/
theorem streamStreamIn_forwards_reads_then_eof (conn : Conn) (input : Stdin) (resp : String)
    (rest : List (Except String Frame))
    (hs : ∀ o ∈ conn.sends, o = none) (hin : ∀ b ∈ input, ∀ c, b.err ≠ .other c)
    (hr : conn.recvs = .ok (.response resp) :: rest) :
    (streamStreamIn conn input).events =
      forwarded (localReads (streamStreamIn conn input).events) ++
        [.sent (.chunk ⟨[], some true⟩) true, .read (some (.response resp))] ∧
    (streamStreamIn conn input).fate = .returned ∧
    sentMessages (streamStreamIn conn input).events =
      ((localReads (streamStreamIn conn input).events).filter fun r => 0 < r.1.length).map
        (fun r => Message.chunk ⟨r.1, none⟩) ++ [Message.chunk ⟨[], some true⟩] ∧
    (∀ content ∈ (sentMessages (streamStreamIn conn input).events).filterMap
        Message.contentChunk, 0 < content.length ∧ content.length ≤ 65536) ∧
    ((sentMessages (streamStreamIn conn input).events).filterMap
        Message.contentChunk).flatten = inputBytes input ∧
    ((localReads (streamStreamIn conn input).events).map Prod.fst).flatten = inputBytes input ∧
    readCount (streamStreamIn conn input).events = 1 := by
  obtain ⟨reads, sends1, hrun, hlen, hbytes⟩ := streamStreamIn_script conn input resp rest hs hin hr
  rw [hrun]
  simp only
  have hlr : localReads (forwarded reads ++
      [.sent (.chunk ⟨[], some true⟩) true, .read (some (.response resp))]) = reads :=
    localReads_forwarded reads _ rfl
  have hsm : sentMessages (forwarded reads ++
      [.sent (.chunk ⟨[], some true⟩) true, .read (some (.response resp))]) =
      ((reads.filter fun r => 0 < r.1.length).map fun r => Message.chunk ⟨r.1, none⟩) ++
        [Message.chunk ⟨[], some true⟩] := by
    have h := sentMessages_forwarded reads
    unfold sentMessages at h ⊢
    rw [List.filterMap_append, h]
    rfl
  have hrc : readCount (forwarded reads ++
      [.sent (.chunk ⟨[], some true⟩) true, .read (some (.response resp))]) = 1 := by
    have h := readCount_forwarded reads
    unfold readCount at h ⊢
    rw [List.filter_append, List.length_append, h]
    rfl
  rw [hlr, hsm, hrc, contents_of_chunks, flatten_nonempty]
  refine ⟨rfl, trivial, rfl, ?_, hbytes, hbytes, rfl⟩
  intro content hc
  obtain ⟨r, hr1, hr2⟩ := List.mem_map.mp hc
  have hr3 := List.mem_filter.mp hr1
  subst hr2
  refine ⟨by simpa using hr3.2, ?_⟩
  have := hlen r hr3.1
  simpa [bufSize] using this

theorem zeros_length (n : Nat) : (zeros n).length = n := by
  simp [zeros]

theorem zeros_take (n k : Nat) : (zeros n).take k = zeros (min k n) := by
  simp [zeros, List.take_replicate]

theorem zeros_drop (n k : Nat) : (zeros n).drop k = zeros (n - k) := by
  simp [zeros, List.drop_replicate]

theorem streamStreamInLoop_split (n : Nat) (recvs : List (Except String Frame))
    (data : List Byte) (err : ReadErr) (rest : Stdin) (hbig : bufSize < data.length) :
    streamStreamInLoop (n + 1) ⟨[], recvs⟩ (⟨data, err⟩ :: rest) =
      ((streamStreamInLoop n ⟨[], recvs⟩ (⟨data.drop bufSize, err⟩ :: rest)).1.after
        [.stdin (data.take bufSize) .none, .sent (.chunk ⟨data.take bufSize, none⟩) true],
       (streamStreamInLoop n ⟨[], recvs⟩ (⟨data.drop bufSize, err⟩ :: rest)).2) := by
  have hfit : ¬ data.length ≤ bufSize := Nat.not_le_of_lt hbig
  have hpos : 0 < bufSize := bufSize_pos
  have hpos2 : 0 < data.length := Nat.lt_trans hpos hbig
  simp [streamStreamInLoop, stdinRead, hfit, hpos, hpos2, Conn.sendMessage, Run.after]

theorem streamStreamInLoop_whole (n : Nat) (recvs : List (Except String Frame))
    (data : List Byte) (rest : Stdin) (hfit : data.length ≤ bufSize) (hpos : 0 < data.length) :
    streamStreamInLoop (n + 1) ⟨[], recvs⟩ (⟨data, .none⟩ :: rest) =
      ((streamStreamInLoop n ⟨[], recvs⟩ rest).1.after
        [.stdin data .none, .sent (.chunk ⟨data, none⟩) true],
       (streamStreamInLoop n ⟨[], recvs⟩ rest).2) := by
  simp [streamStreamInLoop, stdinRead, hfit, hpos, Conn.sendMessage, Run.after]

theorem streamStreamInLoop_end (n : Nat) (recvs : List (Except String Frame)) :
    streamStreamInLoop (n + 1) ⟨[], recvs⟩ [] =
      (⟨[.stdin [] .eof, .sent (.chunk ⟨[], some true⟩) true], .returned, ⟨[], recvs⟩⟩, []) := by
  simp [streamStreamInLoop, stdinRead, Conn.sendMessage]

theorem streamStreamInLoop_130KiB (n : Nat) (recvs : List (Except String Frame)) :
    streamStreamInLoop (n + 4) ⟨[], recvs⟩ input130KiB =
      (⟨[.stdin (zeros 65536) .none, .sent (.chunk ⟨zeros 65536, none⟩) true,
        .stdin (zeros 65536) .none, .sent (.chunk ⟨zeros 65536, none⟩) true,
        .stdin (zeros 2048) .none, .sent (.chunk ⟨zeros 2048, none⟩) true,
        .stdin [] .eof, .sent (.chunk ⟨[], some true⟩) true], .returned, ⟨[], recvs⟩⟩, []) := by
  unfold input130KiB
  rw [streamStreamInLoop_split (n + 3) recvs _ _ _ (by rw [zeros_length]; decide)]
  rw [zeros_drop, zeros_take]
  rw [streamStreamInLoop_split (n + 2) recvs _ _ _ (by rw [zeros_length]; decide)]
  rw [zeros_drop, zeros_take]
  rw [streamStreamInLoop_whole (n + 1) recvs _ _ (by rw [zeros_length]; decide)
    (by rw [zeros_length]; decide)]
  rw [streamStreamInLoop_end]
  simp [Run.after, bufSize]

theorem readsBound_single (d : List Byte) (e : ReadErr) :
    readsBound [⟨d, e⟩] = d.length + 1 := by
  simp [readsBound]

theorem readsBound_130KiB : readsBound input130KiB + 1 = 133118 + 4 := by
  have h1 : readsBound input130KiB = readsBound [⟨zeros (130 * 1024), .none⟩] := by
    unfold input130KiB
    exact Eq.refl _
  have h2 : (zeros (130 * 1024)).length + 1 + 1 = 133118 + 4 := by
    rw [zeros_length]
  rw [h1, readsBound_single, h2]

theorem streamStreamIn_of_loop (conn : Conn) (input input1 : Stdin) (ev : List Event)
    (sends1 : List (Option String)) (resp : String) (rest : List (Except String Frame))
    (hloop : streamStreamInLoop (readsBound input + 1) conn input =
      (⟨ev, .returned, ⟨sends1, .ok (.response resp) :: rest⟩⟩, input1)) :
    streamStreamIn conn input =
      ⟨ev ++ [.read (some (.response resp))], .returned, ⟨sends1, rest⟩⟩ := by
  simp [streamStreamIn, hloop, Conn.readResponse, Conn.recv]

theorem streamStreamIn_130KiB :
    streamStreamIn ⟨[], [.ok (.response "ok")]⟩ input130KiB =
      ⟨[.stdin (zeros 65536) .none, .sent (.chunk ⟨zeros 65536, none⟩) true,
        .stdin (zeros 65536) .none, .sent (.chunk ⟨zeros 65536, none⟩) true,
        .stdin (zeros 2048) .none, .sent (.chunk ⟨zeros 2048, none⟩) true,
        .stdin [] .eof, .sent (.chunk ⟨[], some true⟩) true,
        .read (some (.response "ok"))], .returned, ⟨[], []⟩⟩ :=
  streamStreamIn_of_loop _ _ [] _ [] "ok" [] (by
    rw [readsBound_130KiB]
    exact streamStreamInLoop_130KiB 133118 _)

/-- C2 at 130 KiB of local input available at once: the content chunks
sent have 65536, 65536 and 2048 bytes, the end-of-file chunk follows, and
one response is read. -/
theorem streamStreamIn_forwards_reads_then_eof_witness :
    readCount (streamStreamIn ⟨[], [.ok (.response "ok")]⟩ input130KiB).events = 1 ∧
    sentMessages (streamStreamIn ⟨[], [.ok (.response "ok")]⟩ input130KiB).events =
      [.chunk ⟨zeros 65536, none⟩, .chunk ⟨zeros 65536, none⟩, .chunk ⟨zeros 2048, none⟩,
        .chunk ⟨[], some true⟩] ∧
    (streamStreamIn ⟨[], [.ok (.response "ok")]⟩ input130KiB).events =
      [.stdin (zeros 65536) .none, .sent (.chunk ⟨zeros 65536, none⟩) true,
        .stdin (zeros 65536) .none, .sent (.chunk ⟨zeros 65536, none⟩) true,
        .stdin (zeros 2048) .none, .sent (.chunk ⟨zeros 2048, none⟩) true,
        .stdin [] .eof, .sent (.chunk ⟨[], some true⟩) true,
        .read (some (.response "ok"))] :=
  ⟨(streamStreamIn_forwards_reads_then_eof ⟨[], [.ok (.response "ok")]⟩ input130KiB "ok" []
      (fun _ h => nomatch h)
      (fun b hb c => by
        have hb1 : b = ⟨zeros (130 * 1024), .none⟩ := by simpa [input130KiB] using hb
        rw [hb1]
        intro h
        cases h)
      rfl).2.2.2.2.2.2,
    by rw [streamStreamIn_130KiB]; rfl,
    by rw [streamStreamIn_130KiB]⟩

theorem streamProcessPayloadsLoop_renders (fuel : Nat) (conn : Conn) :
    records (streamProcessPayloadsLoop fuel conn).events =
        received (streamProcessPayloadsLoop fuel conn).events ∧
      rawWrites (streamProcessPayloadsLoop fuel conn).events = [] := by
  induction fuel generalizing conn with
  | zero => exact ⟨rfl, rfl⟩
  | succ n ih =>
    unfold streamProcessPayloadsLoop
    rcases h : conn.readPayload with ⟨res, conn1⟩
    cases res with
    | error err => exact ⟨rfl, rfl⟩
    | ok payload =>
      simp only
      split
      · exact ⟨rfl, rfl⟩
      · obtain ⟨h1, h2⟩ := ih conn1
        unfold records received at h1
        unfold rawWrites at h2
        simp only [Run.after, records, received, rawWrites, List.filterMap_append]
        rw [h1, h2]
        exact ⟨rfl, rfl⟩

theorem streamStreamOutLoop_renders (fuel : Nat) (conn : Conn) :
    records (streamStreamOutLoop fuel conn).events = [] ∧
      rawWrites (streamStreamOutLoop fuel conn).events =
        chunkContents (received (streamStreamOutLoop fuel conn).events) := by
  induction fuel generalizing conn with
  | zero => exact ⟨rfl, rfl⟩
  | succ n ih =>
    unfold streamStreamOutLoop
    rcases h : conn.readChunk with ⟨res, conn1⟩
    cases res with
    | error err => exact ⟨rfl, rfl⟩
    | ok payload =>
      simp only
      split
      · exact ⟨rfl, rfl⟩
      · obtain ⟨h1, h2⟩ := ih conn1
        unfold records at h1
        unfold rawWrites chunkContents received at h2
        simp only [Run.after, records, received, rawWrites, chunkContents,
          List.filterMap_append]
        rw [h1, h2]
        exact ⟨rfl, rfl⟩

theorem noRender_nil : NoRender [] := by
  intro e he
  cases he

theorem noRender_append {a b : List Event} (ha : NoRender a) (hb : NoRender b) :
    NoRender (a ++ b) := by
  intro e he
  rcases List.mem_append.mp he with h | h
  · exact ha e h
  · exact hb e h

theorem noRender_cons {e : Event} {t : List Event} (he : e.rendered = false)
    (ht : NoRender t) : NoRender (e :: t) := by
  intro x hx
  rcases List.mem_cons.mp hx with h | h
  · exact h ▸ he
  · exact ht x h

theorem noRender_observed {t : List Event} (ht : NoRender t) :
    records t = [] ∧ rawWrites t = [] := by
  induction t with
  | nil => exact ⟨rfl, rfl⟩
  | cons e t ih =>
    have he : e.rendered = false := ht e (by simp)
    obtain ⟨h1, h2⟩ := ih (fun x hx => ht x (by simp [hx]))
    unfold records at h1
    unfold rawWrites at h2
    cases e <;> simp_all [records, rawWrites, Event.rendered]

theorem streamStreamInLoop_noRender (fuel : Nat) (conn : Conn) (input : Stdin) :
    NoRender (streamStreamInLoop fuel conn input).1.events := by
  induction fuel generalizing conn input with
  | zero => exact noRender_nil
  | succ n ih =>
    unfold streamStreamInLoop
    rcases hr : stdinRead bufSize input with ⟨⟨data, err⟩, input1⟩
    simp only
    by_cases hn : 0 < data.length
    · simp only [hn, if_true]
      rcases hs : conn.sendMessage with ⟨res, conn1⟩
      cases res with
      | some e =>
        simp only [Run.after]
        exact noRender_cons rfl (noRender_cons rfl (noRender_cons rfl noRender_nil))
      | none =>
        simp only
        cases err with
        | eof =>
          simp only
          rcases hs2 : conn1.sendMessage with ⟨res2, conn2⟩
          cases res2 with
          | some e2 =>
            exact noRender_cons rfl (noRender_cons rfl (noRender_cons rfl
              (noRender_cons rfl noRender_nil)))
          | none =>
            exact noRender_cons rfl (noRender_cons rfl (noRender_cons rfl noRender_nil))
        | other cause =>
          exact noRender_cons rfl (noRender_cons rfl (noRender_cons rfl noRender_nil))
        | none =>
          simp only [Run.after]
          exact noRender_cons rfl (noRender_cons rfl (ih conn1 input1))
    · simp only [hn, if_false]
      cases err with
      | eof =>
        simp only
        rcases hs2 : conn.sendMessage with ⟨res2, conn2⟩
        cases res2 with
        | some e2 =>
          exact noRender_cons rfl (noRender_cons rfl (noRender_cons rfl noRender_nil))
        | none => exact noRender_cons rfl (noRender_cons rfl noRender_nil)
      | other cause => exact noRender_cons rfl (noRender_cons rfl noRender_nil)
      | none =>
        simp only [Run.after]
        exact noRender_cons rfl (ih conn input1)

theorem streamStreamIn_noRender (conn : Conn) (input : Stdin) :
    NoRender (streamStreamIn conn input).events := by
  unfold streamStreamIn
  have hl := streamStreamInLoop_noRender (readsBound input + 1) conn input
  rcases hloop : streamStreamInLoop (readsBound input + 1) conn input with ⟨loop, rest⟩
  rw [hloop] at hl
  simp only at hl ⊢
  rcases loop with ⟨ev, fate, c⟩
  cases fate with
  | returned =>
    simp only at hl ⊢
    rcases hrd : c.readResponse with ⟨res, conn1⟩
    cases res with
    | error err =>
      exact noRender_append hl (noRender_cons rfl (noRender_cons rfl noRender_nil))
    | ok resp => exact noRender_append hl (noRender_cons rfl noRender_nil)
  | exited code => exact hl
  | outOfFuel => exact hl

/-- C6, refuted as stated: in a streamOut exchange the leading response
is received but never rendered; one non-chunk message is received and no
record is written, the only output being the raw content of the chunks. -/
theorem streamOut_response_not_rendered :
    received (action "streamOut" ⟨"StreamOutRequest", []⟩
        (.ok ⟨[], [.ok (.response "ok"), .ok (.chunk ⟨[97, 98], none⟩),
          .ok (.chunk ⟨[], some true⟩)]⟩) []).1 =
      [.response "ok", .chunk ⟨[97, 98], none⟩, .chunk ⟨[], some true⟩] ∧
    records (action "streamOut" ⟨"StreamOutRequest", []⟩
        (.ok ⟨[], [.ok (.response "ok"), .ok (.chunk ⟨[97, 98], none⟩),
          .ok (.chunk ⟨[], some true⟩)]⟩) []).1 = [] ∧
    (action "streamOut" ⟨"StreamOutRequest", []⟩
        (.ok ⟨[], [.ok (.response "ok"), .ok (.chunk ⟨[97, 98], none⟩),
          .ok (.chunk ⟨[], some true⟩)]⟩) []).1 =
      [.roundTrip ⟨"StreamOutRequest", []⟩ (some "ok"),
        .read (some (.chunk ⟨[97, 98], none⟩)), .raw [97, 98],
        .read (some (.chunk ⟨[], some true⟩)), .raw []] := by
  decide

/-- C6, amended: for every command and every connection, the records
written are, in arrival order, exactly the messages received when the
command is neither streamOut nor streamIn, and none at all for those two;
the raw writes are, in arrival order, the contents of the chunks received
for streamOut, and none at all for every other command. -/
theorem rendering_of_received_messages (commandName : String) (request : Request)
    (provided : Except String Conn) (input : Stdin) :
    records (action commandName request provided input).1 =
      (if commandName = "streamOut" ∨ commandName = "streamIn" then []
        else received (action commandName request provided input).1) ∧
    rawWrites (action commandName request provided input).1 =
      (if commandName = "streamOut" then
        chunkContents (received (action commandName request provided input).1)
        else []) := by
  unfold action
  cases provided with
  | error err =>
    by_cases h1 : commandName = "streamOut"
    · simp [h1, records, rawWrites, received, chunkContents]
    · simp [h1, records, rawWrites, received]
  | ok conn =>
    simp only
    by_cases ha : commandName = "attach"
    · subst ha
      rcases hs : conn.sendMessage with ⟨res, conn1⟩
      cases res with
      | some err => simp [records, rawWrites, received]
      | none =>
        obtain ⟨h1, h2⟩ := streamProcessPayloadsLoop_renders (conn1.recvs.length + 1) conn1
        unfold records received at h1
        unfold rawWrites at h2
        simp [streamProcessPayloads, Run.after, records, rawWrites, received, h1, h2]
    · simp only [ha, if_false]
      rcases hs : conn.roundTrip with ⟨res, conn1⟩
      cases res with
      | error err =>
        by_cases h1 : commandName = "streamOut"
        · simp [h1, records, rawWrites, received, chunkContents]
        · simp [h1, records, rawWrites, received]
      | ok response =>
        simp only
        by_cases ho : commandName = "streamOut"
        · subst ho
          obtain ⟨h1, h2⟩ := streamStreamOutLoop_renders (conn1.recvs.length + 1) conn1
          unfold records at h1
          unfold rawWrites chunkContents received at h2
          simp [streamStreamOut, Run.after, records, rawWrites, received, chunkContents, h1, h2]
        · by_cases hi : commandName = "streamIn"
          · subst hi
            obtain ⟨h1, h2⟩ := noRender_observed (streamStreamIn_noRender conn1 input)
            unfold records at h1
            unfold rawWrites at h2
            simp [Run.after, records, rawWrites, h1, h2]
          · simp only [ho, hi, if_false, or_self]
            by_cases hr : commandName = "run"
            · subst hr
              obtain ⟨h1, h2⟩ := streamProcessPayloadsLoop_renders (conn1.recvs.length + 1) conn1
              unfold records received at h1
              unfold rawWrites at h2
              simp [streamProcessPayloads, Run.after, records, rawWrites, received, h1, h2]
            · simp [hr, records, rawWrites, received]

theorem length_eq_data (s : String) : s.length = s.data.length := rfl

theorem trimSuffix_append (base suffix : String) : trimSuffix (base ++ suffix) suffix = base := by
  have hlen : (base ++ suffix).length - suffix.length = base.data.length := by
    rw [String.length_append, length_eq_data base]
    omega
  have hs : hasSuffix (base ++ suffix) suffix = true := by
    unfold hasSuffix
    rw [hlen, String.data_append, List.drop_left]
    simp
  unfold trimSuffix
  rw [hs, hlen, String.data_append, List.take_left]
  rfl

/-- C10: command-name derivation is a total function of the request type
name; for every name ending in "Request", whether the part before the
suffix is empty or starts with the character `c` followed by `cs`, the
command name is that part with only `c` lower-cased; `CreateRequest` gives
`create` and `NetInRequest` gives `netIn`. -/
theorem command_name_derivation (c : Char) (cs : List Char) :
    (generateCommand (String.mk (c :: cs) ++ "Request")).name = String.mk (c.toLower :: cs) ∧
    (generateCommand ("" ++ "Request")).name = "" ∧
    (generateCommand "CreateRequest").name = "create" ∧
    (generateCommand "NetInRequest").name = "netIn" := by
  refine ⟨?_, ?_, by decide, by decide⟩
  · show lowercase (trimSuffix (String.mk (c :: cs) ++ "Request") "Request") = _
    rw [trimSuffix_append]
    rfl
  · show lowercase (trimSuffix ("" ++ "Request") "Request") = _
    rw [trimSuffix_append]
    rfl

theorem decodeInto_lookup (members : List (String × Option String)) (config : Config)
    (key : String) :
    decodeInto members config key = (lastValue key members).getD (config key) := by
  induction members generalizing config with
  | nil => rfl
  | cons kv rest ih =>
    have h : decodeInto (kv :: rest) config =
        decodeInto rest (fun k => if k = kv.1 then kv.2.getD "" else config k) := rfl
    rw [h, ih]
    cases hl : lastValue key rest with
    | some v => simp [lastValue, hl]
    | none =>
      by_cases hk : kv.1 = key
      · simp [lastValue, hl, hk]
      · have hk2 : ¬ key = kv.1 := fun h => hk h.symm
        simp [lastValue, hl, hk, hk2]

/-- C5, refuted as stated: with both flags given explicitly (tcp and
10.0.0.1:7777) and a config file holding other values, the resolved network
and address are those of the file, not those of the flags. -/
theorem connectionInfo_file_beats_explicit_flags :
    connectionInfo "/root/.shankrc" ⟨some "tcp", some "10.0.0.1:7777"⟩
        (.object [("network", some "unix"), ("addr", some "/var/run/warden.sock")]) =
      .ok ⟨"unix", "/var/run/warden.sock"⟩ ∧
    connectionInfo "/root/.shankrc" ⟨some "tcp", some "10.0.0.1:7777"⟩
        (.object [("network", some "unix"), ("addr", some "/var/run/warden.sock")]) ≠
      .ok ⟨"tcp", "10.0.0.1:7777"⟩ := by
  have h : connectionInfo "/root/.shankrc" ⟨some "tcp", some "10.0.0.1:7777"⟩
      (.object [("network", some "unix"), ("addr", some "/var/run/warden.sock")]) =
      .ok ⟨"unix", "/var/run/warden.sock"⟩ := by
    simp [connectionInfo, decodeInto]
  refine ⟨h, ?_⟩
  rw [h]
  intro hc
  injection hc with hc
  injection hc with h1 h2
  exact absurd h1 (by decide)

/-- C5, amended: `connectionInfo` merges, in increasing precedence, the
compiled-in default, the flag of the invocation and the persisted config
file.  When the file holds a JSON object, the resolved value of each of
network and addr is the string of the object's last member of that name
(the empty string for a `null` member), even when an explicit flag gives
another value, and the value of the flag when the object has no such
member.  When the file cannot be opened it is the value of the flag.  When
the file holds the JSON value `null` both resolved values are the empty
string, whatever the flags.  When the file does not decode, `connectionInfo`
panics.  The value of a flag is the explicit one when given and the
default (unix, /tmp/warden.sock) when not. -/
theorem connectionInfo_precedence (shankRCFile : String) (c : Globals)
    (members : List (String × Option String)) (err : String) :
    connectionInfo shankRCFile c (.object members) =
      .ok ⟨(lastValue "network" members).getD (c.globalString "network"),
        (lastValue "addr" members).getD (c.globalString "addr")⟩ ∧
    connectionInfo shankRCFile c .absent =
      .ok ⟨c.globalString "network", c.globalString "addr"⟩ ∧
    connectionInfo shankRCFile c .null = .ok ⟨"", ""⟩ ∧
    connectionInfo shankRCFile c (.undecodable err) =
      .error ("cannot decode " ++ shankRCFile ++ ": " ++ err) ∧
    c.globalString "network" = c.network.getD "unix" ∧
    c.globalString "addr" = c.addr.getD "/tmp/warden.sock" := by
  refine ⟨?_, ?_, ?_, ?_, ?_, ?_⟩
  · simp [connectionInfo, decodeInto_lookup]
  · simp [connectionInfo]
  · simp [connectionInfo, nilConfig]
  · simp [connectionInfo]
  · simp [Globals.globalString]
  · simp [Globals.globalString]

theorem filter_isReceive_forwarded (rs : List (List Byte × ReadErr)) :
    (forwarded rs).filter Event.isReceive = [] := by
  induction rs with
  | nil => rfl
  | cons r rs ih =>
    by_cases hpos : 0 < r.1.length
    · simp [forwarded, hpos, Event.isReceive, ih]
    · simp [forwarded, hpos, Event.isReceive, ih]

theorem takeWhile_forwarded (rs : List (List Byte × ReadErr)) (tail : List Event) :
    (forwarded rs ++ eofSent :: tail).takeWhile (fun e => e != eofSent) = forwarded rs := by
  induction rs with
  | nil => simp [forwarded]
  | cons r rs ih =>
    by_cases hpos : 0 < r.1.length
    · simp [forwarded, hpos, eofSent, List.takeWhile_cons] at ih ⊢
      exact ih
    · simp [forwarded, hpos, eofSent, List.takeWhile_cons] at ih ⊢
      exact ih

/-- C7, refuted as stated: a streamIn exchange awaits two responses, not
one, and the first of them, that of the round trip, is awaited before the
end-of-file chunk (or any chunk) has been sent. -/
theorem streamIn_awaits_a_response_before_forwarding :
    (action "streamIn" ⟨"StreamInRequest", []⟩
        (.ok ⟨[], [.ok (.response "ready"), .ok (.response "done")]⟩) [⟨[1, 2, 3], .eof⟩]).1 =
      [.roundTrip ⟨"StreamInRequest", []⟩ (some "ready"), .stdin [1, 2, 3] .eof,
        .sent (.chunk ⟨[1, 2, 3], none⟩) true, .sent (.chunk ⟨[], some true⟩) true,
        .read (some (.response "done"))] ∧
    awaited (action "streamIn" ⟨"StreamInRequest", []⟩
        (.ok ⟨[], [.ok (.response "ready"), .ok (.response "done")]⟩) [⟨[1, 2, 3], .eof⟩]).1 =
      2 ∧
    receivesBeforeEof (action "streamIn" ⟨"StreamInRequest", []⟩
        (.ok ⟨[], [.ok (.response "ready"), .ok (.response "done")]⟩) [⟨[1, 2, 3], .eof⟩]).1 =
      1 := by
  decide

/-- C7, amended: the streamIn command, on a connection whose writes are
delivered and which holds two responses, over a local input that reaches
its end without a read error: the exchange awaits exactly two responses,
the first by the round trip of the request, before anything is forwarded,
and the second by one read after forwarding has fully completed; the round
trip is the only receive performed before the end-of-file chunk is sent. -/
theorem streamIn_round_trip_then_forward_then_response (request : Request)
    (first final : String) (sends : List (Option String))
    (rest : List (Except String Frame)) (input : Stdin)
    (hs : ∀ o ∈ sends, o = none) (hin : ∀ b ∈ input, ∀ c, b.err ≠ .other c) :
    (action "streamIn" request
        (.ok ⟨sends, .ok (.response first) :: .ok (.response final) :: rest⟩) input).1 =
      .roundTrip request (some first) ::
        (forwarded (localReads (action "streamIn" request
          (.ok ⟨sends, .ok (.response first) :: .ok (.response final) :: rest⟩) input).1) ++
        [eofSent, .read (some (.response final))]) ∧
    (action "streamIn" request
        (.ok ⟨sends, .ok (.response first) :: .ok (.response final) :: rest⟩) input).2 =
      .returned ∧
    awaited (action "streamIn" request
        (.ok ⟨sends, .ok (.response first) :: .ok (.response final) :: rest⟩) input).1 = 2 ∧
    receivesBeforeEof (action "streamIn" request
        (.ok ⟨sends, .ok (.response first) :: .ok (.response final) :: rest⟩) input).1 = 1 := by
  have hw : sends.headD none = none := by
    cases sends with
    | nil => rfl
    | cons o os => exact hs o (by simp)
  obtain ⟨reads, sends1, hrun, _, _⟩ :=
    streamStreamIn_script ⟨sends.tail, .ok (.response final) :: rest⟩ input final rest
      (tail_quiet hs) hin rfl
  have hact : action "streamIn" request
      (.ok ⟨sends, .ok (.response first) :: .ok (.response final) :: rest⟩) input =
      (.roundTrip request (some first) ::
        (forwarded reads ++ [eofSent, .read (some (.response final))]), .returned) := by
    simp [action, roundTrip_ok sends hw, hrun, Run.after, eofSent]
  rw [hact]
  simp only
  have hlr : localReads (.roundTrip request (some first) ::
      (forwarded reads ++ [eofSent, .read (some (.response final))])) = reads := by
    have h := localReads_forwarded reads [eofSent, .read (some (.response final))] rfl
    unfold localReads at h ⊢
    rw [List.filterMap_cons]
    exact h
  have haw : awaited (.roundTrip request (some first) ::
      (forwarded reads ++ [eofSent, .read (some (.response final))])) = 2 := by
    unfold awaited
    rw [List.filter_cons, List.filter_append, filter_isReceive_forwarded]
    rfl
  have hbe : receivesBeforeEof (.roundTrip request (some first) ::
      (forwarded reads ++ [eofSent, .read (some (.response final))])) = 1 := by
    unfold receivesBeforeEof
    have hne : (Event.roundTrip request (some first) != eofSent) = true := by
      simp [eofSent]
    rw [List.takeWhile_cons, hne]
    simp only [if_true]
    rw [takeWhile_forwarded, List.filter_cons, filter_isReceive_forwarded]
    rfl
  rw [hlr, haw, hbe]
  exact ⟨rfl, trivial, rfl, rfl⟩

/-- C7, amended, at a local input of two bursts, the second ending the
input: two responses are awaited, one of them before the end-of-file chunk. -/
theorem streamIn_round_trip_then_forward_then_response_witness :
    awaited (action "streamIn" ⟨"StreamInRequest", [("handle", "h1")]⟩
        (.ok ⟨[none], [.ok (.response "ready"), .ok (.response "done")]⟩)
        [⟨[104, 105], .none⟩, ⟨[33], .eof⟩]).1 = 2 ∧
    receivesBeforeEof (action "streamIn" ⟨"StreamInRequest", [("handle", "h1")]⟩
        (.ok ⟨[none], [.ok (.response "ready"), .ok (.response "done")]⟩)
        [⟨[104, 105], .none⟩, ⟨[33], .eof⟩]).1 = 1 :=
  (streamIn_round_trip_then_forward_then_response ⟨"StreamInRequest", [("handle", "h1")]⟩
    "ready" "done" [none] [] [⟨[104, 105], .none⟩, ⟨[33], .eof⟩]
    (by decide) (by
      intro b hb c
      simp at hb
      rcases hb with h | h <;> subst h <;> simp)).2.2

/-! ### The loops never run out of iterations -/

theorem readPayload_consumes (conn conn1 : Conn) (p : ProcessPayload)
    (h : conn.readPayload = (.ok p, conn1)) : conn1.recvs.length < conn.recvs.length := by
  rcases conn with ⟨sends, recvs⟩
  cases recvs with
  | nil => simp [Conn.readPayload, Conn.recv] at h
  | cons r rest =>
    cases r with
    | error e => simp [Conn.readPayload, Conn.recv] at h
    | ok f =>
      cases f <;> simp [Conn.readPayload, Conn.recv] at h
      rw [← h.2]
      simp

theorem readChunk_consumes (conn conn1 : Conn) (k : StreamChunk)
    (h : conn.readChunk = (.ok k, conn1)) : conn1.recvs.length < conn.recvs.length := by
  rcases conn with ⟨sends, recvs⟩
  cases recvs with
  | nil => simp [Conn.readChunk, Conn.recv] at h
  | cons r rest =>
    cases r with
    | error e => simp [Conn.readChunk, Conn.recv] at h
    | ok f =>
      cases f <;> simp [Conn.readChunk, Conn.recv] at h
      rw [← h.2]
      simp

theorem streamProcessPayloadsLoop_terminates (fuel : Nat) (conn : Conn)
    (hfuel : conn.recvs.length < fuel) :
    (streamProcessPayloadsLoop fuel conn).fate ≠ .outOfFuel := by
  induction fuel generalizing conn with
  | zero => cases hfuel
  | succ n ih =>
    unfold streamProcessPayloadsLoop
    rcases h : conn.readPayload with ⟨res, conn1⟩
    cases res with
    | error err => simp
    | ok payload =>
      simp only
      split
      · simp
      · have hlt := readPayload_consumes conn conn1 payload h
        exact ih conn1 (by omega)

theorem streamStreamOutLoop_terminates (fuel : Nat) (conn : Conn)
    (hfuel : conn.recvs.length < fuel) :
    (streamStreamOutLoop fuel conn).fate ≠ .outOfFuel := by
  induction fuel generalizing conn with
  | zero => cases hfuel
  | succ n ih =>
    unfold streamStreamOutLoop
    rcases h : conn.readChunk with ⟨res, conn1⟩
    cases res with
    | error err => simp
    | ok payload =>
      simp only
      split
      · simp
      · have hlt := readChunk_consumes conn conn1 payload h
        exact ih conn1 (by omega)

theorem stdinRead_none_consumes (input input1 : Stdin) (data : List Byte)
    (h : stdinRead bufSize input = ((data, .none), input1)) :
    readsBound input1 < readsBound input := by
  cases input with
  | nil => simp [stdinRead] at h
  | cons b rest =>
    unfold stdinRead at h
    by_cases hfit : b.data.length ≤ bufSize
    · simp only [hfit, if_true, Prod.mk.injEq] at h
      rw [← h.2]
      simp [readsBound]
    · simp only [hfit, if_false, Prod.mk.injEq] at h
      rw [← h.2]
      have := bufSize_pos
      simp [readsBound]
      omega

theorem streamStreamInLoop_terminates (fuel : Nat) (conn : Conn) (input : Stdin)
    (hfuel : readsBound input < fuel) :
    (streamStreamInLoop fuel conn input).1.fate ≠ .outOfFuel := by
  induction fuel generalizing conn input with
  | zero => cases hfuel
  | succ n ih =>
    unfold streamStreamInLoop
    rcases hr : stdinRead bufSize input with ⟨⟨data, err⟩, input1⟩
    simp only
    by_cases hn : 0 < data.length
    · simp only [hn, if_true]
      rcases hs : conn.sendMessage with ⟨res, conn1⟩
      cases res with
      | some e => simp [Run.after]
      | none =>
        simp only
        cases err with
        | eof =>
          simp only
          rcases hs2 : conn1.sendMessage with ⟨res2, conn2⟩
          cases res2 <;> simp
        | other cause => simp
        | none =>
          have hlt := stdinRead_none_consumes input input1 data hr
          simp only [Run.after]
          exact ih conn1 input1 (by omega)
    · simp only [hn, if_false]
      cases err with
      | eof =>
        simp only
        rcases hs2 : conn.sendMessage with ⟨res2, conn2⟩
        cases res2 <;> simp
      | other cause => simp
      | none =>
        have hlt := stdinRead_none_consumes input input1 data hr
        simp only [Run.after]
        exact ih conn input1 (by omega)

theorem streamStreamIn_terminates (conn : Conn) (input : Stdin) :
    (streamStreamIn conn input).fate ≠ .outOfFuel := by
  unfold streamStreamIn
  have hl := streamStreamInLoop_terminates (readsBound input + 1) conn input (Nat.lt_succ_self _)
  rcases hloop : streamStreamInLoop (readsBound input + 1) conn input with ⟨loop, rest⟩
  rw [hloop] at hl
  simp only at hl ⊢
  rcases loop with ⟨ev, fate, c⟩
  cases fate with
  | returned =>
    simp only
    rcases hrd : c.readResponse with ⟨res, conn1⟩
    cases res <;> simp
  | exited code => simp
  | outOfFuel => exact absurd rfl hl

/-- Every run of an action ends by returning or by `os.Exit`: no loop of
the driver runs out of the iterations granted to it. -/
theorem action_terminates (commandName : String) (request : Request)
    (provided : Except String Conn) (input : Stdin) :
    (action commandName request provided input).2 ≠ .outOfFuel := by
  unfold action
  cases provided with
  | error err => simp
  | ok conn =>
    simp only
    split
    · rcases hs : conn.sendMessage with ⟨res, conn1⟩
      cases res with
      | some err => simp
      | none =>
        exact streamProcessPayloadsLoop_terminates _ conn1 (Nat.lt_succ_self _)
    · rcases hs : conn.roundTrip with ⟨res, conn1⟩
      cases res with
      | error err => simp
      | ok response =>
        simp only [Run.after]
        split
        · exact streamStreamOutLoop_terminates _ conn1 (Nat.lt_succ_self _)
        · split
          · exact streamStreamIn_terminates conn1 input
          · split
            · exact streamProcessPayloadsLoop_terminates _ conn1 (Nat.lt_succ_self _)
            · simp

end Shank
